import Mathlib

/-!
Verification development for the idsp DSP kernel library.

Shallow embedding of the sources:
  * `src/iir.rs`   — biquad IIR filter (`IIR`, `Vec5`, `set_pi`, `update`).
    The Rust code is generic over `T: Float`; we model the scalar type by `ℚ`,
    keeping every operation and its order exactly as written in the source.
    The machine epsilon `T::epsilon()` becomes an explicit parameter `eps`.
  * `src/pll.rs`   — shift-gain type-II PLL (`PLL`, `update`), with all i32
    arithmetic modelled as wrapping arithmetic on `ℤ` modulo `2^32` and the
    arithmetic right shift as floor division by a power of two.
  * `src/cossin.rs` — the quarter-wave LUT cosine/sine evaluator, modelled over
    an arbitrary lookup table `T : ℕ → ℕ` of packed entries, since the concrete
    table is generated at build time by code outside `src/`.
  * The general-gain noise-shaped PLL variant is likewise not under `src/` and
    is modelled from the spec (§4.4).

Machine integers: an `i32` value is an integer in `[-2^31, 2^31)`; Rust's
`wrapping_add`/`wrapping_sub`/`<<` reduce into that window (`wrap32`), `>>` on
`i32` is the arithmetic shift, i.e. floor division by `2^s` (`asr`), and `u32`
quantities are naturals reduced modulo `2^32`.
-/

/-- Reduce an integer into the signed 32-bit window `[-2^31, 2^31)`;
this is two's-complement wrap-around, the semantics of Rust `wrapping_*` on `i32`. -/
def wrap32 (v : Int) : Int := (v + 2^31) % 2^32 - 2^31

/-- Reduce an integer into the signed 64-bit window `[-2^63, 2^63)` (wrapping `i64`). -/
def wrap64 (v : Int) : Int := (v + 2^63) % 2^64 - 2^63

/-- Wrapping 32-bit addition (`i32::wrapping_add`). -/
def wadd (a b : Int) : Int := wrap32 (a + b)

/-- Wrapping 32-bit subtraction (`i32::wrapping_sub`). -/
def wsub (a b : Int) : Int := wrap32 (a - b)

/-- Arithmetic right shift of a signed integer: floor division by `2^s`.
Lean's `Int` division `/` is Euclidean division, which for the positive
divisor `2^s` is exactly floor division, matching Rust `>>` on `i32`. -/
def asr (v : Int) (s : Nat) : Int := v / 2^s

/-- Value of an `i32` reinterpreted `as u32` (Rust `phase as u32`). -/
def toU32 (v : Int) : Nat := (v % 2^32).toNat

/-- Bitwise NOT on `i32` (Rust `!phase`): two's-complement `-1 - v`. -/
def inot (v : Int) : Int := -1 - v

/-! ## Biquad IIR filter (`src/iir.rs`), scalar type modelled by `ℚ` -/

/-- IIR state/coefficient vector (`pub type Vec5<T> = [T; 5]`).
As state it holds `[x0, x1, x2, y1, y2]` (most recent first); as coefficients
it holds `[b0, b1, b2, a1, a2]` with the feedback taps negated and `a0 = 1`. -/
structure Vec5 where
  i0 : ℚ
  i1 : ℚ
  i2 : ℚ
  i3 : ℚ
  i4 : ℚ
deriving DecidableEq

/-- Modelled from the spec: the scalar multiply-accumulate helper `macc`
(`y_offset + Σ ba[i]·xy[i]`, §4.2/§6) lives outside `src/`; it folds the
element-wise products onto the initial value from the left. -/
def macc (y0 : ℚ) (x a : Vec5) : ℚ :=
  y0 + x.i0 * a.i0 + x.i1 * a.i1 + x.i2 * a.i2 + x.i3 * a.i3 + x.i4 * a.i4

/-- Modelled from the spec: the scalar `copysign` helper (outside `src/`):
the magnitude of `a` carrying the sign of `b` (§4.2: "Sign taken from `kp`"). -/
def copysign (a b : ℚ) : ℚ := if b < 0 then -|a| else |a|

/-- The `num_traits::clamp` collaborator:
`if input < lo { lo } else if input > hi { hi } else { input }`. -/
def clamp (input lo hi : ℚ) : ℚ := if input < lo then lo else if hi < input then hi else input

/-- IIR configuration (`pub struct IIR<T>`): coefficients `ba`, output offset
`y_offset` and output limits `y_min`, `y_max`. -/
structure IIR where
  ba : Vec5
  y_offset : ℚ
  y_min : ℚ
  y_max : ℚ
deriving DecidableEq

/-- The blend coefficient `c` synthesized by `set_pi`:
`1` if `|g| < eps`, else `1 / (1 + ki / g)`. -/
def piBlend (eps ki g : ℚ) : ℚ := if |g| < eps then 1 else 1 / (1 + ki / g)

/-- `IIR::set_pi(kp, ki, g)` from `src/iir.rs`. The Rust method mutates
`self.ba` on success and returns `Result<(), &str>`; we return the outcome flag
(`some ()` = the `Err` case, its message dropped) together with the resulting
configuration. `eps` stands for `T::epsilon()`. -/
def IIR.set_pi (eps : ℚ) (c : IIR) (kp ki g : ℚ) : Option Unit × IIR :=
  let ki := copysign ki kp
  let g := copysign g kp
  if |ki| < eps then
    (none, { c with ba := ⟨kp, 0, 0, 0, 0⟩ })
  else
    let cc := piBlend eps ki g
    let a1 := 2 * cc - 1
    let b0 := ki * cc + kp
    let b1 := ki * cc - a1 * kp
    if |b0 + b1| < eps then
      (some (), c)
    else
      (none, { c with ba := ⟨b0, b1, 0, a1, 0⟩ })

/-- `IIR::update(&self, xy, x0, hold)` from `src/iir.rs`.
`xy.copy_within(0..4, 1)` then `xy[0] = x0` turns `[x0,x1,y0,y1,y2]` into
`[x0', x0, x1, y0, y1]`; the hold branch replays `xy[3]` (the previous output),
otherwise `macc` runs over the shifted state; the result is clamped, stored at
`xy[2]` and returned. Returns `(y0, new xy)`. -/
def IIR.update (c : IIR) (xy : Vec5) (x0 : ℚ) (hold : Bool) : ℚ × Vec5 :=
  let s : Vec5 := ⟨x0, xy.i0, xy.i1, xy.i2, xy.i3⟩
  let y0 := if hold then s.i3 else macc c.y_offset s c.ba
  let y0 := clamp y0 c.y_min c.y_max
  (y0, ⟨s.i0, s.i1, y0, s.i3, s.i4⟩)

/-! ## Shift-gain PLL (`src/pll.rs`) -/

/-- `pub struct PLL`: last input phase `x`, filtered frequency `f`,
filtered output phase `y`, all `i32`. -/
structure PLL where
  x : Int
  f : Int
  y : Int
deriving DecidableEq

/-- `PLL::update(&mut self, x, shift_frequency, shift_phase)` from `src/pll.rs`.
Returns the `(phase, frequency)` pair together with the updated state.
`1i32 << (shift - 1)` is `2^(shift-1)` for the contractual range `1..=30`. -/
def PLL.update (s : PLL) (x? : Option Int) (shift_frequency shift_phase : Nat) :
    (Int × Int) × PLL :=
  match x? with
  | some x =>
    let df := asr (wsub (wsub (wadd (2^(shift_frequency - 1)) x) s.x) s.f) shift_frequency
    let s : PLL := { s with x := x }
    let s : PLL := { s with f := wadd s.f df }
    let f := wsub s.f (asr df 1)
    let s : PLL := { s with y := wadd s.y f }
    let dy := asr (wsub (wadd (2^(shift_phase - 1)) x) s.y) shift_phase
    let s : PLL := { s with y := wadd s.y dy }
    let y := wsub s.y (asr dy 1)
    ((y, wadd f dy), s)
  | none =>
    let s : PLL := { s with x := wadd s.x s.f }
    let s : PLL := { s with y := wadd s.y s.f }
    ((s.y, s.f), s)

/-- The biased arithmetic right shift used by `PLL::update` for the frequency
and phase error scaling: `(1i32 << (s - 1)).wrapping_add(v) >> s`. -/
def biasedShift (v : Int) (s : Nat) : Int := asr (wrap32 (2^(s - 1) + v)) s

/-- Rounding `v / 2^s` to the nearest integer with ties away from zero
(the rounding mode named by the claim). -/
def roundTiesAway (v : Int) (s : Nat) : Int :=
  if 0 ≤ v then (v + 2^(s - 1)) / 2^s else -((-v + 2^(s - 1)) / 2^s)

/-- Rounding to the nearest integer with ties toward positive infinity
("round half up"): `⌊v / 2^s + 1/2⌋`. -/
def roundHalfUp (v : Int) (s : Nat) : Int := ⌊(v : ℚ) / 2^s + 1/2⌋

/-! ## General-gain, noise-shaped PLL (spec §4.4) -/

/-- Modelled from the spec: the general-gain noise-shaped PLL variant (§4.4)
is not part of the sources under `src/`. State: last input phase `x` (`i32`),
64-bit fixed-point frequency and phase accumulators `f`, `y` (upper 32 bits =
integer estimate, lower 32 bits = retained fraction), and the externally
visible single-cycle-delayed integer estimates `f0`, `y0` (`i32`). -/
structure NSPLL where
  x : Int
  f : Int
  y : Int
  f0 : Int
  y0 : Int
deriving DecidableEq

/-- Modelled from the spec: `update(x: Option<phase>, k: gain)` of the
noise-shaped PLL (§4.4). On a sample: `df = (dx - f_hi) * k` is applied to the
frequency accumulator twice, once before advancing the phase accumulator by the
updated frequency and once after; the phase accumulator receives the analogous
double-applied correction `dy = (x - y_hi) * k`, with the externally visible
truncated phase captured between the two applications and the visible frequency
tracking the visible phase delta. On a missing sample both accumulators advance
open-loop and the visible estimates track via the retained deltas. -/
def NSPLL.update (s : NSPLL) (x? : Option Int) (k : Int) : NSPLL :=
  match x? with
  | some x =>
    let dx := wsub x s.x
    let fhi := asr s.f 32
    let df := wrap64 (wsub dx fhi * k)
    let f1 := wrap64 (s.f + df)
    let y1 := wrap64 (s.y + f1)
    let f2 := wrap64 (f1 + df)
    let yhi := asr y1 32
    let dy := wrap64 (wsub x yhi * k)
    let y2 := wrap64 (y1 + dy)
    let yv := asr y2 32
    let fv := wsub yv s.y0
    let y3 := wrap64 (y2 + dy)
    ⟨x, f2, y3, fv, yv⟩
  | none =>
    ⟨wadd s.x s.f0, s.f, wrap64 (s.y + s.f), s.f0, wadd s.y0 s.f0⟩

/-- Accessor: externally visible phase estimate. -/
def NSPLL.phase (s : NSPLL) : Int := s.y0

/-- Accessor: externally visible frequency estimate. -/
def NSPLL.frequency (s : NSPLL) : Int := s.f0

/-! ## Cosine/sine lookup-table evaluator (`src/cossin.rs`)

The lookup table `COSSIN` is generated at build time by code outside `src/`,
so the evaluator is modelled over an arbitrary table `T : ℕ → ℕ` of packed
`u32` entries (low 16 bits: biased cosine, high 16 bits: sine). -/

/-- Table depth in bits (`COSSIN_DEPTH`, the source uses a 7-bit deep LUT). -/
def COSSIN_DEPTH : Nat := 7

/-- `ALIGN_MSB = 32 - 16 - 1`: 16 + 1 bits for cos/sin and 15 for dphi. -/
def ALIGN_MSB : Nat := 15

/-- Fixed point `pi/4`: `(core::f64::consts::FRAC_PI_4 * (1 << 16) as f64) as i32`,
i.e. `0.78539816... * 65536 = 51471.85...` truncated toward zero. -/
def PI4 : Int := 51471

/-- The body of `cossin` from the aligned working phase onward, as a function of
`u = (phase as u32) << 3` (already reduced mod `2^32`): table lookup at the
sub-interval index, reduction to the residual offset around the LUT midpoint,
linear interpolation via `dphi`, and scaling to the output format. Returns the
pre-unmapping `(cos, sin)` pair. `&` with a low-bit mask on a non-negative
value is `%`, `>>` on a non-negative value is `/`, and each `i32` operation
that can exceed the signed window is wrapped. -/
def cossinLow (T : Nat → Nat) (u : Nat) : Int × Int :=
  let phase : Nat := u / 2^(32 - COSSIN_DEPTH - ALIGN_MSB)
  let lookup : Nat := T (phase / 2^ALIGN_MSB)
  let phase : Nat := phase % 2^ALIGN_MSB
  let phase : Int := (phase : Int) - 2^(ALIGN_MSB - 1)
  let dphi : Int := asr (wrap32 (phase * PI4)) 16
  let cos : Int := ((lookup % 2^16 : Nat) : Int) + 2^16
  let sin : Int := ((lookup / 2^16 : Nat) : Int)
  let dcos : Int := asr (wrap32 (sin * dphi)) COSSIN_DEPTH
  let dsin : Int := asr (wrap32 (cos * dphi)) (COSSIN_DEPTH + 1)
  (wrap32 (wrap32 (cos * 2^(ALIGN_MSB - 1)) - dcos),
   wrap32 (wrap32 (sin * 2^ALIGN_MSB) + dsin))

/-- The final unmapping step of `cossin` through the Gray-coded octant bits
(`octant ^= octant >> 1` already applied to `g`): bit 29 swaps cos/sin,
bit 30 negates cos, bit 31 negates sin (`i32` negation wraps). -/
def unmap (g : Nat) (cs : Int × Int) : Int × Int :=
  let cs := if g.testBit 29 then (cs.2, cs.1) else cs
  let c := if g.testBit 30 then wrap32 (-cs.1) else cs.1
  let s := if g.testBit 31 then wrap32 (-cs.2) else cs.2
  (c, s)

/-- `pub fn cossin(phase: i32) -> (i32, i32)` from `src/cossin.rs`: octant
folding via one's complement when bit 29 is set, evaluation of the first-octant
kernel `cossinLow` on `(phase as u32) << 3`, then `unmap` on the Gray-coded
octant bits. -/
def cossin (T : Nat → Nat) (phase : Int) : Int × Int :=
  let octant : Nat := toU32 phase
  let folded : Int := if octant.testBit 29 then inot phase else phase
  unmap (octant ^^^ (octant / 2)) (cossinLow T (toU32 folded * 2^3 % 2^32))

/-- Modelled from the spec: the build-time LUT (outside `src/`) stores packed
midpoint samples with headroom so that the interpolated outputs never clip the
`i32` range (§3 "Lookup table", §4.1). For an entry `e` this is the headroom
bound on each interpolated component over the residual-offset range
`dphi ∈ [-12868, 12866]`: the extrapolated cosine `(e%2^16 + 2^16)·2^14 + dcos`
and sine `(e/2^16)·2^15 + dsin` magnitudes stay at most `2^31 - 1`. -/
def entryOk (e : Nat) : Prop :=
  (e % 2^16 + 2^16) * 2^14 + ((e / 2^16) * 12868 + 127) / 128 ≤ 2^31 - 1 ∧
  (e / 2^16) * 2^15 + (e % 2^16 + 2^16) * 12866 / 256 ≤ 2^31 - 1

instance (e : Nat) : Decidable (entryOk e) := by unfold entryOk; infer_instance

/-- Modelled from the spec: every entry of the build-time LUT satisfies the
headroom bound `entryOk`. -/
def TableOk (T : Nat → Nat) : Prop := ∀ i, i < 2^COSSIN_DEPTH → entryOk (T i)

instance (T : Nat → Nat) : Decidable (TableOk T) := by
  unfold TableOk; infer_instance

/-! ## Helper lemmas -/

theorem wrap32_eq_self {z : Int} (h1 : -(2^31) ≤ z) (h2 : z < 2^31) : wrap32 z = z := by
  unfold wrap32; omega

theorem clamp_lower {x lo hi : ℚ} (h : lo ≤ hi) : lo ≤ clamp x lo hi := by
  unfold clamp; split_ifs <;> linarith

theorem clamp_upper {x lo hi : ℚ} (h : lo ≤ hi) : clamp x lo hi ≤ hi := by
  unfold clamp; split_ifs <;> linarith

theorem clamp_of_lt {x lo hi : ℚ} (hx : x < lo) : clamp x lo hi = lo := by
  unfold clamp; split_ifs <;> linarith

theorem clamp_of_gt {x lo hi : ℚ} (h : lo ≤ hi) (hx : hi < x) : clamp x lo hi = hi := by
  unfold clamp; split_ifs <;> linarith

theorem clamp_of_mem {x lo hi : ℚ} (h1 : lo ≤ x) (h2 : x ≤ hi) : clamp x lo hi = x := by
  unfold clamp; split_ifs <;> linarith

theorem copysign_zero (b : ℚ) : copysign 0 b = 0 := by
  unfold copysign; split_ifs <;> simp

/-! ## Claim theorems -/

/-- C1. With `hold = false`, `IIR::update` shifts the state (inserting the new
input at slot 0 and aging out the oldest entries), computes
`y0 = y_offset + b0*x0 + b1*x1 + b2*x2 + a1*y1 + a2*y2` over the shifted state
and `ba = [b0, b1, b2, a1, a2]`, clamps it to `[y_min, y_max]`, stores the
clamped value at the middle slot (index 2) and returns it. -/
theorem iir_update_macc_clamp_store (c : IIR) (xy : Vec5) (x0 : ℚ) :
    IIR.update c xy x0 false =
      (clamp (c.y_offset + c.ba.i0 * x0 + c.ba.i1 * xy.i0 + c.ba.i2 * xy.i1
          + c.ba.i3 * xy.i2 + c.ba.i4 * xy.i3) c.y_min c.y_max,
       ⟨x0, xy.i0,
        clamp (c.y_offset + c.ba.i0 * x0 + c.ba.i1 * xy.i0 + c.ba.i2 * xy.i1
          + c.ba.i3 * xy.i2 + c.ba.i4 * xy.i3) c.y_min c.y_max,
        xy.i2, xy.i3⟩) := by
  have h : macc c.y_offset ⟨x0, xy.i0, xy.i1, xy.i2, xy.i3⟩ c.ba
      = c.y_offset + c.ba.i0 * x0 + c.ba.i1 * xy.i0 + c.ba.i2 * xy.i1
        + c.ba.i3 * xy.i2 + c.ba.i4 * xy.i3 := by
    simp only [macc]; ring
  simp [IIR.update, h]

/-- C2. From the default all-zero state, `PLL::update(Some(0x10000), 8, 4)`
returns the pair `(0x87c, 0x1078)` (the `tests::mini` regression fixture). -/
theorem pll_update_mini_fixture :
    (PLL.update ⟨0, 0, 0⟩ (some 0x10000) 8 4).1 = (0x87c, 0x1078) := by decide

/-- C4 counterexample. With `y_min = y_max = 0` and a state whose previous
output slot holds `1`, a `hold = true` update returns the clamp bound `0`,
not the previous output `1`: the hold path still clamps, so the claim "returns
the previous output unchanged for every configuration and state" fails. -/
theorem iir_hold_returns_clamped_counterexample :
    (IIR.update ⟨⟨0, 0, 0, 0, 0⟩, 0, 0, 0⟩ ⟨0, 0, 1, 0, 0⟩ 5 true).1 = 0 ∧
    (Vec5.mk 0 0 1 0 0).i2 = 1 ∧ (0 : ℚ) ≠ 1 := by
  norm_num [IIR.update, clamp]

/-- C4 (amended). With `hold = true`, `IIR::update` returns the previous
output unchanged regardless of the new input — provided that output lies
within `[y_min, y_max]` (the hold path still applies the output clamp) — while
shifting the state exactly as in a normal update (new input at slot 0, oldest
entries aged out, the returned value stored at the middle slot). -/
theorem iir_hold_replays_previous_output (c : IIR) (xy : Vec5) (x0 : ℚ)
    (h1 : c.y_min ≤ xy.i2) (h2 : xy.i2 ≤ c.y_max) :
    IIR.update c xy x0 true = (xy.i2, ⟨x0, xy.i0, xy.i2, xy.i2, xy.i3⟩) := by
  simp [IIR.update, clamp_of_mem h1 h2]

theorem iir_hold_replays_previous_output_witness :
    IIR.update ⟨⟨1, 2, 3, 4, 5⟩, 7, 0, 9⟩ ⟨1, 2, 3, 4, 5⟩ 6 true
      = (3, ⟨6, 1, 3, 3, 4⟩) :=
  iir_hold_replays_previous_output ⟨⟨1, 2, 3, 4, 5⟩, 7, 0, 9⟩ ⟨1, 2, 3, 4, 5⟩ 6
    (by norm_num) (by norm_num)

/-- C5. On a missing sample (`update(None, ..)` with shifts in `[1, 30]`), the
shift-gain PLL leaves the filtered frequency unchanged, advances both the
stored last-input phase and the output phase accumulator by exactly that
frequency (wrapping modulo `2^32`), and returns the advanced phase accumulator
together with the unchanged frequency. -/
theorem pll_update_none_open_loop (s : PLL) (sf sp : Nat)
    (h1 : 1 ≤ sf) (h2 : sf ≤ 30) (h3 : 1 ≤ sp) (h4 : sp ≤ 30) :
    (PLL.update s none sf sp).2.f = s.f ∧
    (PLL.update s none sf sp).2.x = wrap32 (s.x + s.f) ∧
    (PLL.update s none sf sp).2.y = wrap32 (s.y + s.f) ∧
    (PLL.update s none sf sp).1 = (wrap32 (s.y + s.f), s.f) := by
  simp [PLL.update, wadd]

theorem pll_update_none_open_loop_witness :
    (PLL.update ⟨1, 2, 3⟩ none 8 4).2.f = 2 ∧
    (PLL.update ⟨1, 2, 3⟩ none 8 4).2.x = wrap32 (1 + 2) ∧
    (PLL.update ⟨1, 2, 3⟩ none 8 4).2.y = wrap32 (3 + 2) ∧
    (PLL.update ⟨1, 2, 3⟩ none 8 4).1 = (wrap32 (3 + 2), 2) :=
  pll_update_none_open_loop ⟨1, 2, 3⟩ 8 4 (by norm_num) (by norm_num)
    (by norm_num) (by norm_num)

/-- C3 counterexample. With `kp = ki = 0` (and `eps` the `f32` machine epsilon
`2^-23 = 1/8388608`) the synthesized feed-forward sum `b0 + b1 = kp + 0 = 0`
has magnitude below epsilon, yet `set_pi` succeeds: the zero-`ki` branch never
signals an error, so "returns an error exactly when `|b0+b1| < eps`" and
"`set_pi(kp, 0, g)` errors whenever `b0+b1` underflows epsilon" both fail. -/
theorem set_pi_underflow_ok_counterexample :
    (IIR.set_pi (1/8388608) ⟨⟨0, 0, 0, 0, 0⟩, 0, 0, 0⟩ 0 0 1).1 = none ∧
    |(IIR.set_pi (1/8388608) ⟨⟨0, 0, 0, 0, 0⟩, 0, 0, 0⟩ 0 0 1).2.ba.i0 +
      (IIR.set_pi (1/8388608) ⟨⟨0, 0, 0, 0, 0⟩, 0, 0, 0⟩ 0 0 1).2.ba.i1|
      < 1/8388608 := by
  norm_num [IIR.set_pi, copysign]

/-- C3 (amended). `set_pi` returns an error exactly when the sign-adjusted
integral gain reaches epsilon (`eps ≤ |copysign ki kp|`) and the synthesized
feed-forward sum `b0 + b1 = 2·ki·c + kp·(2 - 2c)` has magnitude below epsilon;
in particular `set_pi(kp, 0, g)` never returns an error, for any `kp`. -/
theorem set_pi_error_condition (eps : ℚ) (c : IIR) (kp ki g : ℚ) :
    ((IIR.set_pi eps c kp ki g).1 = some () ↔
      eps ≤ |copysign ki kp| ∧
      |2 * copysign ki kp * piBlend eps (copysign ki kp) (copysign g kp)
        + kp * (2 - 2 * piBlend eps (copysign ki kp) (copysign g kp))| < eps) ∧
    (IIR.set_pi eps c kp 0 g).1 = none := by
  constructor
  · simp only [IIR.set_pi]
    have hb : copysign ki kp * piBlend eps (copysign ki kp) (copysign g kp) + kp
          + (copysign ki kp * piBlend eps (copysign ki kp) (copysign g kp)
            - (2 * piBlend eps (copysign ki kp) (copysign g kp) - 1) * kp)
        = 2 * copysign ki kp * piBlend eps (copysign ki kp) (copysign g kp)
          + kp * (2 - 2 * piBlend eps (copysign ki kp) (copysign g kp)) := by ring
    split_ifs with hki h2
    · constructor
      · intro h; exact absurd h (by simp)
      · rintro ⟨h, -⟩; exact absurd h (not_le.mpr hki)
    · constructor
      · intro _; exact ⟨not_lt.mp hki, by rw [← hb]; exact h2⟩
      · intro _; rfl
    · constructor
      · intro h; exact absurd h (by simp)
      · rintro ⟨-, h⟩; rw [← hb] at h; exact absurd h h2
  · simp only [IIR.set_pi, copysign_zero, abs_zero]
    by_cases h0 : (0 : ℚ) < eps
    · rw [if_pos h0]
    · rw [if_neg h0]
      split_ifs with h2
      · exact absurd (lt_of_le_of_lt (abs_nonneg _) h2) h0
      · rfl

/-- C6 counterexample. At `v = -8`, `s = 4` (within the claimed ranges, with
no overflow when adding the bias `2^3`), the biased arithmetic right shift
yields `0` while rounding `-8/16 = -1/2` to the nearest integer with ties away
from zero yields `-1`: the bias implements ties toward `+∞`, not away from
zero. -/
theorem biased_shift_ties_counterexample :
    ((1 : Nat) ≤ 4 ∧ (4 : Nat) ≤ 30 ∧ -(2^31) ≤ (-8 : Int)
      ∧ (2 : Int)^(4 - 1) + -8 < 2^31) ∧
    biasedShift (-8) 4 = 0 ∧ roundTiesAway (-8) 4 = -1 :=
  ⟨by norm_num, by decide, by decide⟩

/-- C6 (amended). For every 32-bit `v` and shift `s ∈ [1, 30]` such that adding
the bias `2^(s-1)` does not overflow, the biased arithmetic right shift
`(v + (1 << (s-1))) >> s` equals `v / 2^s` rounded to the nearest integer with
ties toward positive infinity ("round half up"). -/
theorem biased_shift_rounds_half_up (v : Int) (s : Nat)
    (h1 : 1 ≤ s) (h2 : s ≤ 30) (h3 : -(2^31) ≤ v) (h4 : 2^(s - 1) + v < 2^31) :
    biasedShift v s = roundHalfUp v s := by
  have hpow : (0 : Int) < 2^(s - 1) := by positivity
  have hw : wrap32 (2^(s - 1) + v) = 2^(s - 1) + v :=
    wrap32_eq_self (by linarith) h4
  unfold biasedShift roundHalfUp asr
  rw [hw]
  have hs : s = (s - 1) + 1 := (Nat.succ_pred_eq_of_pos h1).symm
  have h2s : ((2 : ℚ))^s = 2^(s - 1) * 2 := by conv_lhs => rw [hs, pow_succ]
  have key : (v : ℚ) / 2^s + 1/2 = ((2^(s - 1) + v : Int) : ℚ) / ((2^s : Nat) : ℚ) := by
    have hne : ((2 : ℚ))^s ≠ 0 := by positivity
    push_cast
    rw [h2s]
    field_simp
    ring
  rw [key, Rat.floor_intCast_div_natCast]
  push_cast
  rfl

theorem biased_shift_rounds_half_up_witness :
    ((1 : Nat) ≤ 4 ∧ (4 : Nat) ≤ 30 ∧ -(2^31) ≤ (6 : Int)
      ∧ (2 : Int)^(4 - 1) + 6 < 2^31) ∧
    biasedShift 6 4 = roundHalfUp 6 4 :=
  ⟨by norm_num, biased_shift_rounds_half_up 6 4 (by norm_num) (by norm_num)
    (by norm_num) (by norm_num)⟩

/-- C7. Whenever `y_min ≤ y_max`, the value returned by `IIR::update` lies in
`[y_min, y_max]` and equals the value stored in the middle state slot; and
whenever the unclamped multiply-accumulate result over the shifted state falls
outside the limits (in a non-hold update), the returned value is exactly the
violated bound. -/
theorem iir_update_output_within_limits (c : IIR) (xy : Vec5) (x0 : ℚ)
    (hold : Bool) (h : c.y_min ≤ c.y_max) :
    c.y_min ≤ (IIR.update c xy x0 hold).1 ∧
    (IIR.update c xy x0 hold).1 ≤ c.y_max ∧
    (IIR.update c xy x0 hold).2.i2 = (IIR.update c xy x0 hold).1 ∧
    (hold = false →
      macc c.y_offset ⟨x0, xy.i0, xy.i1, xy.i2, xy.i3⟩ c.ba < c.y_min →
      (IIR.update c xy x0 hold).1 = c.y_min) ∧
    (hold = false →
      c.y_max < macc c.y_offset ⟨x0, xy.i0, xy.i1, xy.i2, xy.i3⟩ c.ba →
      (IIR.update c xy x0 hold).1 = c.y_max) := by
  refine ⟨?_, ?_, ?_, ?_, ?_⟩
  · simp only [IIR.update]; exact clamp_lower h
  · simp only [IIR.update]; exact clamp_upper h
  · simp [IIR.update]
  · rintro rfl hm
    simp only [IIR.update, Bool.false_eq_true, if_false]
    exact clamp_of_lt hm
  · rintro rfl hm
    simp only [IIR.update, Bool.false_eq_true, if_false]
    exact clamp_of_gt h hm

theorem iir_update_output_within_limits_witness :
    (0 : ℚ) ≤ 1 ∧
    ((0 : ℚ) ≤ (IIR.update ⟨⟨0, 0, 0, 0, 0⟩, 0, 0, 1⟩ ⟨0, 0, 0, 0, 0⟩ 2 false).1 ∧
    (IIR.update ⟨⟨0, 0, 0, 0, 0⟩, 0, 0, 1⟩ ⟨0, 0, 0, 0, 0⟩ 2 false).1 ≤ 1 ∧
    (IIR.update ⟨⟨0, 0, 0, 0, 0⟩, 0, 0, 1⟩ ⟨0, 0, 0, 0, 0⟩ 2 false).2.i2
      = (IIR.update ⟨⟨0, 0, 0, 0, 0⟩, 0, 0, 1⟩ ⟨0, 0, 0, 0, 0⟩ 2 false).1 ∧
    (false = false →
      macc 0 ⟨2, 0, 0, 0, 0⟩ ⟨0, 0, 0, 0, 0⟩ < 0 →
      (IIR.update ⟨⟨0, 0, 0, 0, 0⟩, 0, 0, 1⟩ ⟨0, 0, 0, 0, 0⟩ 2 false).1 = 0) ∧
    (false = false →
      1 < macc 0 ⟨2, 0, 0, 0, 0⟩ ⟨0, 0, 0, 0, 0⟩ →
      (IIR.update ⟨⟨0, 0, 0, 0, 0⟩, 0, 0, 1⟩ ⟨0, 0, 0, 0, 0⟩ 2 false).1 = 1)) :=
  ⟨by norm_num,
   iir_update_output_within_limits ⟨⟨0, 0, 0, 0, 0⟩, 0, 0, 1⟩ ⟨0, 0, 0, 0, 0⟩ 2
     false (by norm_num)⟩

/-- C8. `set_pi` never pairs an error with a modified configuration: either it
succeeds, or it leaves the whole configuration unchanged; moreover `y_offset`,
`y_min` and `y_max` are preserved unconditionally. -/
theorem set_pi_error_preserves_config (eps : ℚ) (c : IIR) (kp ki g : ℚ) :
    ((IIR.set_pi eps c kp ki g).1 = none ∨ (IIR.set_pi eps c kp ki g).2 = c) ∧
    (IIR.set_pi eps c kp ki g).2.y_offset = c.y_offset ∧
    (IIR.set_pi eps c kp ki g).2.y_min = c.y_min ∧
    (IIR.set_pi eps c kp ki g).2.y_max = c.y_max := by
  simp only [IIR.set_pi]
  split_ifs <;> simp

/-- C9. The general-gain, noise-shaped PLL variant (modelled from spec §4.4):
from zero state, one `update` with sample `x = 0x10000` and gain `k = 1 << 24`
leaves both the phase and the frequency accessor reading back `0x1ff`. -/
theorem nspll_update_mini_fixture :
    (NSPLL.update ⟨0, 0, 0, 0, 0⟩ (some 0x10000) (2^24)).phase = 0x1ff ∧
    (NSPLL.update ⟨0, 0, 0, 0, 0⟩ (some 0x10000) (2^24)).frequency = 0x1ff :=
  ⟨by decide, by decide⟩

/-! ## Helper lemmas for the cossin claims -/

theorem wrap32_wrap32 (z : Int) : wrap32 (wrap32 z) = wrap32 z := by
  unfold wrap32; omega

theorem wrap32_neg_wrap32_neg (z : Int) : wrap32 (-(wrap32 (-z))) = wrap32 z := by
  unfold wrap32; omega

theorem toU32_lt (v : Int) : toU32 v < 2^32 := by
  unfold toU32; omega

theorem toU32_wrap32 (z : Int) : toU32 (wrap32 z) = toU32 z := by
  unfold toU32 wrap32; omega

theorem toU32_inot (v : Int) : toU32 (inot v) = 2^32 - 1 - toU32 v := by
  unfold toU32 inot; omega

theorem testBit29_of_addHalf {a : Nat} (ha : a < 2^32) :
    ((a + 2^31) % 2^32).testBit 29 = a.testBit 29 := by
  rw [Nat.testBit_to_div_mod, Nat.testBit_to_div_mod]
  have h : (a + 2^31) % 2^32 / 2^29 % 2 = a / 2^29 % 2 := by omega
  rw [h]

theorem testBit30_of_addHalf {a : Nat} (ha : a < 2^32) :
    ((a + 2^31) % 2^32).testBit 30 = a.testBit 30 := by
  rw [Nat.testBit_to_div_mod, Nat.testBit_to_div_mod]
  have h : (a + 2^31) % 2^32 / 2^30 % 2 = a / 2^30 % 2 := by omega
  rw [h]

theorem testBit31_of_addHalf {a : Nat} (ha : a < 2^32) :
    ((a + 2^31) % 2^32).testBit 31 = !a.testBit 31 := by
  rw [Nat.testBit_to_div_mod, Nat.testBit_to_div_mod]
  rcases (show a / 2^31 % 2 = 0 ∨ a / 2^31 % 2 = 1 by omega) with h | h
  · have h2 : (a + 2^31) % 2^32 / 2^31 % 2 = 1 := by omega
    rw [h, h2]; rfl
  · have h2 : (a + 2^31) % 2^32 / 2^31 % 2 = 0 := by omega
    rw [h, h2]; rfl

theorem gray_testBit (a k : Nat) :
    (a ^^^ (a / 2)).testBit k = ((a.testBit k).xor (a.testBit (k + 1))) := by
  rw [Nat.testBit_xor, Nat.testBit_div_two]

theorem gray_bits_addHalf {a : Nat} (ha : a < 2^32) :
    ((((a + 2^31) % 2^32) ^^^ ((a + 2^31) % 2^32 / 2)).testBit 29
        = (a ^^^ (a / 2)).testBit 29) ∧
    ((((a + 2^31) % 2^32) ^^^ ((a + 2^31) % 2^32 / 2)).testBit 30
        = !(a ^^^ (a / 2)).testBit 30) ∧
    ((((a + 2^31) % 2^32) ^^^ ((a + 2^31) % 2^32 / 2)).testBit 31
        = !(a ^^^ (a / 2)).testBit 31) := by
  have ha2 : (a + 2^31) % 2^32 < 2^32 := by omega
  refine ⟨?_, ?_, ?_⟩
  · rw [gray_testBit, gray_testBit, testBit29_of_addHalf ha, testBit30_of_addHalf ha]
  · rw [gray_testBit, gray_testBit, testBit30_of_addHalf ha, testBit31_of_addHalf ha]
    cases a.testBit 30 <;> cases a.testBit 31 <;> rfl
  · rw [gray_testBit, gray_testBit, testBit31_of_addHalf ha,
      Nat.testBit_lt_two_pow ha2, Nat.testBit_lt_two_pow ha]
    cases a.testBit 31 <;> rfl

theorem unmap_flip {g g2 : Nat} {cs : Int × Int}
    (hc : wrap32 cs.1 = cs.1) (hs : wrap32 cs.2 = cs.2)
    (e29 : g2.testBit 29 = g.testBit 29)
    (e30 : g2.testBit 30 = !g.testBit 30)
    (e31 : g2.testBit 31 = !g.testBit 31) :
    unmap g2 cs = (wrap32 (-(unmap g cs).1), wrap32 (-(unmap g cs).2)) := by
  unfold unmap
  rw [e29, e30, e31]
  cases g.testBit 29 <;> cases g.testBit 30 <;> cases g.testBit 31 <;>
    simp [wrap32_neg_wrap32_neg, hc, hs]

theorem unmap_bounds {g : Nat} {cs : Int × Int}
    (hc : -(2^31 - 1) ≤ cs.1 ∧ cs.1 ≤ 2^31 - 1)
    (hs : -(2^31 - 1) ≤ cs.2 ∧ cs.2 ≤ 2^31 - 1) :
    (-(2^31 - 1) ≤ (unmap g cs).1 ∧ (unmap g cs).1 ≤ 2^31 - 1) ∧
    (-(2^31 - 1) ≤ (unmap g cs).2 ∧ (unmap g cs).2 ≤ 2^31 - 1) := by
  obtain ⟨hc1, hc2⟩ := hc
  obtain ⟨hs1, hs2⟩ := hs
  have w1 : wrap32 (-cs.1) = -cs.1 := wrap32_eq_self (by omega) (by omega)
  have w2 : wrap32 (-cs.2) = -cs.2 := wrap32_eq_self (by omega) (by omega)
  unfold unmap
  cases g.testBit 29 <;> cases g.testBit 30 <;> cases g.testBit 31 <;>
    simp [w1, w2] <;> omega

theorem neg_ediv_le_ceil (mN : Nat) :
    -((-(mN : Int)) / 2^7) ≤ (((mN + 127) / 128 : Nat) : Int) := by
  have h : (mN : Int) ≤ 128 * (((mN + 127) / 128 : Nat) : Int) := by
    have hN : mN ≤ 128 * ((mN + 127) / 128) := by omega
    exact_mod_cast hN
  have h2 : -((((mN + 127) / 128 : Nat) : Int)) ≤ (-(mN : Int)) / 2^7 := by
    rw [Int.le_ediv_iff_mul_le (by norm_num)]
    linarith
  linarith

set_option maxHeartbeats 1000000 in
theorem interp_bounds (e q : Nat) (dphi co si dcos dsin : Int)
    (hq : q < 2^15) (he : entryOk e)
    (hdphi : dphi = asr (wrap32 (((q : Int) - 2^14) * 51471)) 16)
    (hco : co = ((e % 2^16 : Nat) : Int) + 2^16)
    (hsi : si = ((e / 2^16 : Nat) : Int))
    (hdcos : dcos = asr (wrap32 (si * dphi)) 7)
    (hdsin : dsin = asr (wrap32 (co * dphi)) 8) :
    (-(2^31 - 1) ≤ wrap32 (wrap32 (co * 2^14) - dcos) ∧
      wrap32 (wrap32 (co * 2^14) - dcos) ≤ 2^31 - 1) ∧
    (-(2^31 - 1) ≤ wrap32 (wrap32 (si * 2^15) + dsin) ∧
      wrap32 (wrap32 (si * 2^15) + dsin) ≤ 2^31 - 1) := by
  obtain ⟨he1, he2⟩ := he
  have hcoL : (2^16 : Int) ≤ co := by
    rw [hco]
    have h0 : (0 : ℤ) ≤ ((e % 2^16 : ℕ) : ℤ) := Nat.cast_nonneg _
    linarith
  have hcoU : co ≤ 131071 := by
    rw [hco]
    have h1 : e % 2^16 < 2^16 := Nat.mod_lt _ (by norm_num)
    have h2 : ((e % 2^16 : ℕ) : ℤ) < 65536 := by exact_mod_cast h1
    linarith
  have hsiL : (0 : Int) ≤ si := by rw [hsi]; exact Nat.cast_nonneg _
  have hsiU : si ≤ 65535 := by
    rw [hsi]
    have hN : e / 2^16 ≤ 65535 := by omega
    exact_mod_cast Nat.cast_le.mpr hN
  -- the interpolation offset dphi lies in [-12868, 12866]
  have hq4L : -(2^14) ≤ (q : Int) - 2^14 := by
    have h0 : (0 : ℤ) ≤ (q : ℤ) := Nat.cast_nonneg _
    linarith
  have hq4U : (q : Int) - 2^14 ≤ 2^14 - 1 := by
    have h0 : (q : ℤ) < 2^15 := by exact_mod_cast hq
    linarith
  have hpL : -(843300864 : Int) ≤ ((q : Int) - 2^14) * 51471 := by linarith
  have hpU : ((q : Int) - 2^14) * 51471 ≤ 843249393 := by linarith
  have hwp : wrap32 (((q : Int) - 2^14) * 51471) = ((q : Int) - 2^14) * 51471 :=
    wrap32_eq_self (by norm_num; linarith) (by norm_num; linarith)
  have hdphiL : -12868 ≤ dphi := by
    rw [hdphi, hwp]
    have h := Int.ediv_le_ediv (show (0 : ℤ) < 2^16 by norm_num) hpL
    have h0 : (-843300864 : ℤ) / 2^16 = -12868 := by norm_num
    simp only [asr]
    omega
  have hdphiU : dphi ≤ 12866 := by
    rw [hdphi, hwp]
    have h := Int.ediv_le_ediv (show (0 : ℤ) < 2^16 by norm_num) hpU
    have h0 : (843249393 : ℤ) / 2^16 = 12866 := by norm_num
    simp only [asr]
    omega
  -- dcos
  have hsdL : si * (-12868) ≤ si * dphi := mul_le_mul_of_nonneg_left hdphiL hsiL
  have hsdU : si * dphi ≤ si * 12866 := mul_le_mul_of_nonneg_left hdphiU hsiL
  have hsdL2 : (-843344380 : ℤ) ≤ si * dphi := by linarith
  have hsdU2 : si * dphi ≤ 843173310 := by linarith
  have hwsd : wrap32 (si * dphi) = si * dphi :=
    wrap32_eq_self (by norm_num; linarith) (by norm_num; linarith)
  have hdcosL : si * (-12868) / 2^7 ≤ dcos := by
    rw [hdcos, hwsd]
    simp only [asr]
    exact Int.ediv_le_ediv (by norm_num) hsdL
  have hdcosU : dcos ≤ si * 12866 / 2^7 := by
    rw [hdcos, hwsd]
    simp only [asr]
    exact Int.ediv_le_ediv (by norm_num) hsdU
  -- cos component
  have hXw : wrap32 (co * 2^14) = co * 2^14 :=
    wrap32_eq_self (by norm_num; linarith) (by norm_num; linarith)
  have hnum : si * (-12868) = -((e / 2^16 * 12868 : ℕ) : ℤ) := by
    rw [hsi]; push_cast; ring
  have hceil : -dcos ≤ (((e / 2^16 * 12868 + 127) / 128 : ℕ) : ℤ) := by
    have h := neg_ediv_le_ceil (e / 2^16 * 12868)
    rw [← hnum] at h
    linarith
  have hcastU : (((e % 2^16 + 2^16) * 2^14 + (e / 2^16 * 12868 + 127) / 128 : ℕ) : ℤ)
      ≤ 2147483647 := by
    exact_mod_cast (show (e % 2^16 + 2^16) * 2^14 + (e / 2^16 * 12868 + 127) / 128
      ≤ 2147483647 by omega)
  have hco14 : co * 2^14 = (((e % 2^16 + 2^16) * 2^14 : ℕ) : ℤ) := by
    rw [hco]; push_cast; ring
  have hcosU : wrap32 (co * 2^14) - dcos ≤ 2^31 - 1 := by
    rw [hXw]
    rw [Nat.cast_add] at hcastU
    rw [← hco14] at hcastU
    linarith
  have hcosL : -(2^31 - 1) ≤ wrap32 (co * 2^14) - dcos := by
    rw [hXw]
    have h2 : si * 12866 ≤ 65535 * 12866 := by linarith
    have h3 : si * 12866 / 2^7 ≤ (65535 * 12866 : ℤ) / 2^7 :=
      Int.ediv_le_ediv (by norm_num) h2
    have h4 : ((65535 * 12866 : ℤ)) / 2^7 = 6587291 := by norm_num
    linarith
  have hw1 : wrap32 (wrap32 (co * 2^14) - dcos) = wrap32 (co * 2^14) - dcos :=
    wrap32_eq_self (by norm_num at hcosL ⊢; linarith) (by norm_num at hcosU ⊢; linarith)
  -- sin component
  have hYw : wrap32 (si * 2^15) = si * 2^15 :=
    wrap32_eq_self (by norm_num; linarith) (by norm_num; linarith)
  have hcdL : co * (-12868) ≤ co * dphi :=
    mul_le_mul_of_nonneg_left hdphiL (by linarith)
  have hcdU : co * dphi ≤ co * 12866 :=
    mul_le_mul_of_nonneg_left hdphiU (by linarith)
  have hcd2L : (-1686621628 : ℤ) ≤ co * dphi := by linarith
  have hcd2U : co * dphi ≤ 1686359486 := by linarith
  have hwcd : wrap32 (co * dphi) = co * dphi :=
    wrap32_eq_self (by norm_num; linarith) (by norm_num; linarith)
  have hdsinL : co * (-12868) / 2^8 ≤ dsin := by
    rw [hdsin, hwcd]
    simp only [asr]
    exact Int.ediv_le_ediv (by norm_num) hcdL
  have hdsinU : dsin ≤ co * 12866 / 2^8 := by
    rw [hdsin, hwcd]
    simp only [asr]
    exact Int.ediv_le_ediv (by norm_num) hcdU
  have hsinU : wrap32 (si * 2^15) + dsin ≤ 2^31 - 1 := by
    rw [hYw]
    have hcast : co * 12866 / 2^8 = (((e % 2^16 + 2^16) * 12866 / 256 : ℕ) : ℤ) := by
      rw [hco, Int.natCast_div]
      push_cast
      norm_num
    have hsi15 : si * 2^15 = ((e / 2^16 * 2^15 : ℕ) : ℤ) := by
      rw [hsi]; push_cast; ring
    have hcastU2 : (((e / 2^16) * 2^15 + (e % 2^16 + 2^16) * 12866 / 256 : ℕ) : ℤ)
        ≤ 2147483647 := by
      exact_mod_cast (show (e / 2^16) * 2^15 + (e % 2^16 + 2^16) * 12866 / 256
        ≤ 2147483647 by omega)
    rw [Nat.cast_add] at hcastU2
    rw [← hsi15, ← hcast] at hcastU2
    linarith
  have hsinL : -(2^31 - 1) ≤ wrap32 (si * 2^15) + dsin := by
    rw [hYw]
    have h2 : 131071 * (-12868) ≤ co * (-12868) := by linarith
    have h3 : (131071 * (-12868) : ℤ) / 2^8 ≤ co * (-12868) / 2^8 :=
      Int.ediv_le_ediv (by norm_num) h2
    have h4 : ((131071 * (-12868) : ℤ)) / 2^8 = -6588366 := by norm_num
    have h5 : (0 : ℤ) ≤ si * 2^15 := by linarith
    linarith
  have hw2 : wrap32 (wrap32 (si * 2^15) + dsin) = wrap32 (si * 2^15) + dsin :=
    wrap32_eq_self (by norm_num at hsinL ⊢; linarith) (by norm_num at hsinU ⊢; linarith)
  rw [hw1, hw2]
  exact ⟨⟨hcosL, hcosU⟩, hsinL, hsinU⟩

theorem cossinLow_wrap_fst (T : Nat → Nat) (u : Nat) :
    wrap32 ((cossinLow T u).1) = (cossinLow T u).1 := by
  simp [cossinLow, wrap32_wrap32]

theorem cossinLow_wrap_snd (T : Nat → Nat) (u : Nat) :
    wrap32 ((cossinLow T u).2) = (cossinLow T u).2 := by
  simp [cossinLow, wrap32_wrap32]

theorem cossinLow_bounds (T : Nat → Nat) (hT : TableOk T) (u : Nat) (hu : u < 2^32) :
    (-(2^31 - 1) ≤ (cossinLow T u).1 ∧ (cossinLow T u).1 ≤ 2^31 - 1) ∧
    (-(2^31 - 1) ≤ (cossinLow T u).2 ∧ (cossinLow T u).2 ≤ 2^31 - 1) := by
  have hidx : u / 2^(32 - COSSIN_DEPTH - ALIGN_MSB) / 2^ALIGN_MSB < 2^COSSIN_DEPTH := by
    simp only [COSSIN_DEPTH, ALIGN_MSB]
    omega
  have he := hT _ hidx
  have hq : u / 2^(32 - COSSIN_DEPTH - ALIGN_MSB) % 2^ALIGN_MSB < 2^15 := by
    simp only [ALIGN_MSB]
    omega
  exact interp_bounds _ _ _ _ _ _ _ hq he rfl rfl rfl rfl rfl

theorem cossin_addHalf_wrapped (T : Nat → Nat) (p : Int) :
    cossin T (wadd p (-(2^31))) =
      (wrap32 (-(cossin T p).1), wrap32 (-(cossin T p).2)) := by
  have haM : toU32 p < 2^32 := toU32_lt p
  have ha2 : toU32 (wadd p (-(2^31))) = (toU32 p + 2^31) % 2^32 := by
    unfold wadd
    rw [toU32_wrap32]
    unfold toU32
    omega
  obtain ⟨e29, e30, e31⟩ := gray_bits_addHalf haM
  have hb29 : (toU32 (wadd p (-(2^31)))).testBit 29 = (toU32 p).testBit 29 := by
    rw [ha2]; exact testBit29_of_addHalf haM
  have hfold : toU32 (if (toU32 (wadd p (-(2^31)))).testBit 29
        then inot (wadd p (-(2^31))) else wadd p (-(2^31))) * 2^3 % 2^32
      = toU32 (if (toU32 p).testBit 29 then inot p else p) * 2^3 % 2^32 := by
    rw [hb29]
    cases hbb : (toU32 p).testBit 29
    · simp only [Bool.false_eq_true, if_false]
      rw [ha2]
      omega
    · simp only [if_true]
      rw [toU32_inot, toU32_inot, ha2]
      omega
  simp only [cossin]
  rw [hfold, ha2]
  exact unmap_flip (cossinLow_wrap_fst T _) (cossinLow_wrap_snd T _) e29 e30 e31

theorem cossin_bounds (T : Nat → Nat) (hT : TableOk T) (p : Int) :
    (-(2^31 - 1) ≤ (cossin T p).1 ∧ (cossin T p).1 ≤ 2^31 - 1) ∧
    (-(2^31 - 1) ≤ (cossin T p).2 ∧ (cossin T p).2 ≤ 2^31 - 1) := by
  have h := cossinLow_bounds T hT
      (toU32 (if (toU32 p).testBit 29 then inot p else p) * 2^3 % 2^32) (by omega)
  simp only [cossin]
  exact unmap_bounds h.1 h.2

/-- C10. For every table satisfying the spec headroom invariant and every
32-bit phase `p`, shifting the phase by half a period exactly negates both
outputs of `cossin` — `cossin(p.wrapping_add(-2^31)) = (-c, -s)` where
`(c, s) = cossin(p)` — and neither output component ever equals `i32::MIN`,
so the negation cannot overflow. -/
theorem cossin_half_period_negation (T : Nat → Nat) (hT : TableOk T) (p : Int) :
    cossin T (wadd p (-(2^31))) = (-(cossin T p).1, -(cossin T p).2) ∧
    (cossin T p).1 ≠ -(2^31) ∧ (cossin T p).2 ≠ -(2^31) := by
  obtain ⟨⟨hc1, hc2⟩, hs1, hs2⟩ := cossin_bounds T hT p
  have hw := cossin_addHalf_wrapped T p
  have e1 : wrap32 (-(cossin T p).1) = -(cossin T p).1 :=
    wrap32_eq_self (by omega) (by omega)
  have e2 : wrap32 (-(cossin T p).2) = -(cossin T p).2 :=
    wrap32_eq_self (by omega) (by omega)
  refine ⟨?_, by omega, by omega⟩
  rw [hw, e1, e2]

theorem cossin_half_period_negation_witness :
    TableOk (fun _ => 0) ∧
    (cossin (fun _ => 0) (wadd 3 (-(2^31)))
        = (-(cossin (fun _ => 0) 3).1, -(cossin (fun _ => 0) 3).2) ∧
      (cossin (fun _ => 0) 3).1 ≠ -(2^31) ∧ (cossin (fun _ => 0) 3).2 ≠ -(2^31)) :=
  ⟨by decide, cossin_half_period_negation (fun _ => 0) (by decide) 3⟩
